import Mathlib

/-!
Verification of the snappychain component registry, chain-id propagation,
and the BM25SJ retriever contract, as a shallow embedding in Lean 4.

The embedding follows `src/snappychain/registry.py`, `src/snappychain/__init__.py`
and (for the BM25SJ engine, whose implementation module is not present in the
source tree) the behavioural contract stated in the specification.
-/

namespace SnappyChain

/-- Python values that appear as `kwargs` / `generate_id` inputs: JSON-style data.
Floats are modelled by rationals (only their deterministic rendering matters here). -/
inductive JValue where
  | jnull : JValue
  | jbool (b : Bool) : JValue
  | jint (n : ℤ) : JValue
  | jfloat (q : ℚ) : JValue
  | jstr (s : String) : JValue
  | jlist (items : List JValue) : JValue
  | jdict (entries : List (String × JValue)) : JValue

/-- One hex digit. -/
def hexDigit (n : ℕ) : Char :=
  if n < 10 then Char.ofNat (48 + n) else Char.ofNat (87 + n)

/-- Four-hex-digit rendering used by JSON `\uXXXX` escapes. -/
def hex4 (n : ℕ) : String :=
  String.mk [hexDigit (n / 4096 % 16), hexDigit (n / 256 % 16),
             hexDigit (n / 16 % 16), hexDigit (n % 16)]

/-- JSON string escaping as performed by `json.dumps` with `ensure_ascii=True`:
quote and backslash are backslash-escaped, common control characters use short
escapes, all other characters outside printable ASCII become `\uXXXX`
(surrogate pairs above U+FFFF). -/
def jsonEscapeChar (c : Char) : String :=
  if c = '"' then "\\\""
  else if c = '\\' then "\\\\"
  else if c = '\n' then "\\n"
  else if c = '\t' then "\\t"
  else if c = '\r' then "\\r"
  else if c.toNat < 32 then "\\u" ++ hex4 c.toNat
  else if c.toNat < 127 then String.mk [c]
  else if c.toNat < 65536 then "\\u" ++ hex4 c.toNat
  else
    let v := c.toNat - 65536
    "\\u" ++ hex4 (55296 + v / 1024) ++ "\\u" ++ hex4 (56320 + v % 1024)

def jsonEscape (s : String) : String :=
  String.join (s.data.map jsonEscapeChar)

/-- Decimal digits of the fractional part of a non-negative rational, as printed
by Python's `repr` for the floats we model (stops at the exact expansion or
after 17 digits). -/
def fracDigits : ℚ → ℕ → String
  | _, 0 => ""
  | x, n + 1 =>
    if x = 0 then ""
    else
      let y := x * 10
      let d := y.floor
      toString d ++ fracDigits (y - d) n

/-- Rendering of a Python float (modelled as a rational): sign, integer part,
decimal point, fractional digits (`.0` when the value is integral). -/
def floatRepr (q : ℚ) : String :=
  let sign := if q < 0 then "-" else ""
  let a := |q|
  let ip := a.floor
  let fr := fracDigits (a - ip) 17
  sign ++ toString ip ++ "." ++ (if fr = "" then "0" else fr)

/-- Key order used by `json.dumps(..., sort_keys=True)`: dict items are sorted;
with the distinct keys of a Python dict only the keys are ever compared. -/
def keyLe (p q : String × JValue) : Prop := p.1 ≤ q.1

instance : DecidableRel keyLe := fun p q => inferInstanceAs (Decidable (p.1 ≤ q.1))

instance : IsTotal (String × JValue) keyLe := ⟨fun p q => le_total p.1 q.1⟩

instance : IsTrans (String × JValue) keyLe := ⟨fun _ _ _ h h' => le_trans h h'⟩

/-- Strict key order on dict entries (used to show sorted entry lists with
distinct keys are unique). -/
def keyLt (p q : String × JValue) : Prop := p.1 < q.1

instance : IsAntisymm (String × JValue) keyLt :=
  ⟨fun _ _ h h' => absurd h' (lt_asymm h)⟩

/-- Recursive canonicalisation performed by `json.dumps(..., sort_keys=True)`:
every dict's entries are put in ascending key order, at every nesting level. -/
def canon : JValue → JValue
  | .jnull => .jnull
  | .jbool b => .jbool b
  | .jint n => .jint n
  | .jfloat q => .jfloat q
  | .jstr s => .jstr s
  | .jlist items => .jlist (items.attach.map (fun v => canon v.1))
  | .jdict entries =>
      .jdict (List.insertionSort keyLe
        (entries.attach.map (fun p => (p.1.1, canon p.1.2))))
decreasing_by
  · have := List.sizeOf_lt_of_mem v.2
    simp only [JValue.jlist.sizeOf_spec]
    omega
  · have h1 := List.sizeOf_lt_of_mem p.2
    have h2 : sizeOf p.1.2 < sizeOf p.1 := by
      obtain ⟨a, b⟩ := p.1
      simp only [Prod.mk.sizeOf_spec]
      omega
    simp only [JValue.jdict.sizeOf_spec]
    omega

/-- JSON rendering with `json.dumps` default separators `", "` and `": "`.
Dict entries are rendered in the order they hold (sorting is in `canon`). -/
def dumps : JValue → String
  | .jnull => "null"
  | .jbool true => "true"
  | .jbool false => "false"
  | .jint n => toString n
  | .jfloat q => floatRepr q
  | .jstr s => "\"" ++ jsonEscape s ++ "\""
  | .jlist items =>
      "[" ++ String.intercalate ", " (items.attach.map (fun v => dumps v.1)) ++ "]"
  | .jdict entries =>
      "\x7b" ++ String.intercalate ", "
        (entries.attach.map
          (fun p => "\"" ++ jsonEscape p.1.1 ++ "\": " ++ dumps p.1.2)) ++ "\x7d"
decreasing_by
  · have := List.sizeOf_lt_of_mem v.2
    simp only [JValue.jlist.sizeOf_spec]
    omega
  · have h1 := List.sizeOf_lt_of_mem p.2
    have h2 : sizeOf p.1.2 < sizeOf p.1 := by
      obtain ⟨a, b⟩ := p.1
      simp only [Prod.mk.sizeOf_spec]
      omega
    simp only [JValue.jdict.sizeOf_spec]
    omega

/-- `ComponentRegistry.generate_id`'s `data_str`: dicts and lists go through
`json.dumps(data, sort_keys=True)` (canonicalise, then render); anything else
through Python `str(...)`. -/
def dataStr : JValue → String
  | .jdict es => dumps (canon (.jdict es))
  | .jlist xs => dumps (canon (.jlist xs))
  | .jstr s => s
  | .jint n => toString n
  | .jfloat q => floatRepr q
  | .jbool true => "True"
  | .jbool false => "False"
  | .jnull => "None"

/-- `ComponentRegistry.generate_id`: md5-hash the serialised data and keep the
first 16 hex characters.  The md5 hex digest is a fixed pure function of the
serialised string; it is abstracted as the parameter `hash` since every claim
depends only on the serialised string fed to it. -/
def generate_id (hash : String → String) (data : JValue) : String :=
  (hash (dataStr data)).take 16

/-! ## Component registry (`src/snappychain/registry.py`) -/

/-- Second components of the 2-tuple keys used by the registry: chain keys
carry an integer step index, model/prompt keys carry a string identifier. -/
inductive Idx where
  | i (n : ℤ) : Idx
  | s (t : String) : Idx
  deriving DecidableEq

/-- Registry keys.  The code only ever distinguishes 2-tuples from everything
else (`isinstance(key, tuple) and len(key) == 2`); non-tuple keys are
modelled by `atom`. -/
inductive RKey where
  | tup (c : String) (x : Idx) : RKey
  | atom (s : String) : RKey
  deriving DecidableEq

/-- `d[k]` lookup in a Python dict modelled as an association list. -/
def dget {κ α : Type} [DecidableEq κ] (k : κ) : List (κ × α) → Option α
  | [] => none
  | p :: t => if p.1 = k then some p.2 else dget k t

/-- `d[k] = v`: update in place when the key exists, append otherwise
(Python dicts preserve insertion order). -/
def dset {κ α : Type} [DecidableEq κ] (k : κ) (v : α) : List (κ × α) → List (κ × α)
  | [] => [(k, v)]
  | p :: t => if p.1 = k then (k, v) :: t else p :: dset k v t

/-- `del d[k]` (keys are unique in a Python dict, so filtering is deletion). -/
def ddel {κ α : Type} [DecidableEq κ] (k : κ) (d : List (κ × α)) : List (κ × α) :=
  d.filter (fun p => p.1 ≠ k)

/-- Objects held by the registry: the chat models and prompt templates the
registry itself constructs, and externally supplied chain objects. -/
inductive Obj where
  | chatOpenAI (model_name temperature : JValue) : Obj
  | chatAnthropic (model_name temperature : JValue) : Obj
  | chatOllama (model_name temperature : JValue) : Obj
  | prompt (messages : JValue) : Obj
  | ext (tag : ℕ) : Obj

/-- `ComponentRegistry` state: the object dict, the last-access dict, and the
TTL read once at creation.  Timestamps are integers measured in hours, so a
`timedelta(hours=lru_hours)` comparison is integer comparison. -/
structure Registry where
  chain_objects : List (RKey × Obj)
  access_times : List (RKey × ℤ)
  lru_hours : ℤ

/-- A fresh registry as set up by `__new__`: both dicts empty. -/
def Registry.init (lru : ℤ) : Registry := ⟨[], [], lru⟩

/-- `_clean_expired_objects`: collect the keys whose last access lies more
than `lru_hours` before `now`, then delete each from both dicts (each
deletion is guarded by membership in `chain_objects`, as in the source). -/
def cleanExpired (now : ℤ) (r : Registry) : Registry :=
  let expired :=
    (r.access_times.filter (fun kt => decide (now - kt.2 > r.lru_hours))).map Prod.fst
  expired.foldl
    (fun r k =>
      if (dget k r.chain_objects).isSome then
        { r with chain_objects := ddel k r.chain_objects,
                 access_times := ddel k r.access_times }
      else r) r

/-- `get_object`: sweep, then on a hit refresh `access_times[key]` and return
the object; `None` on a miss. -/
def get_object (now : ℤ) (key : RKey) (r : Registry) : Option Obj × Registry :=
  let r := cleanExpired now r
  match dget key r.chain_objects with
  | some o => (some o, { r with access_times := dset key now r.access_times })
  | none => (none, r)

/-- `set_object`: sweep, then store the object and a fresh access time. -/
def set_object (now : ℤ) (key : RKey) (o : Obj) (r : Registry) : Registry :=
  let r := cleanExpired now r
  { r with chain_objects := dset key o r.chain_objects,
           access_times := dset key now r.access_times }

/-- `get_chain_object`: lookup under the `(chain_id, index)` tuple key. -/
def get_chain_object (now : ℤ) (chain_id : String) (index : ℤ) (r : Registry) :
    Option Obj × Registry :=
  get_object now (.tup chain_id (.i index)) r

/-- `set_chain_object`: store under the `(chain_id, index)` tuple key. -/
def set_chain_object (now : ℤ) (chain_id : String) (index : ℤ) (o : Obj)
    (r : Registry) : Registry :=
  set_object now (.tup chain_id (.i index)) o r

/-- The key filter of `get_chain_objects` / `remove_chain_objects`:
`isinstance(key, tuple) and len(key) == 2 and key[0] == chain_id`. -/
def matchesChain (chain_id : String) : RKey → Bool
  | .tup c _ => c = chain_id
  | .atom _ => false

/-- The order `result.sort(key=lambda x: x[0])` sorts by.  Python raises
`TypeError` when an int index meets a string one; the order is made total
here (ints before strings) and the theorems only involve homogeneous index
sets, where it agrees with Python. -/
def idxLe : Idx → Idx → Prop
  | .i m, .i n => m ≤ n
  | .i _, .s _ => True
  | .s _, .i _ => False
  | .s a, .s b => a ≤ b

instance : DecidableRel idxLe
  | .i m, .i n => inferInstanceAs (Decidable (m ≤ n))
  | .i _, .s _ => .isTrue trivial
  | .s _, .i _ => .isFalse (fun h => h)
  | .s a, .s b => inferInstanceAs (Decidable (a ≤ b))

/-- Result pairs of `get_chain_objects` compare by their first component. -/
def idxPairLe (a b : Idx × Obj) : Prop := idxLe a.1 b.1

instance : DecidableRel idxPairLe := fun a b =>
  inferInstanceAs (Decidable (idxLe a.1 b.1))

/-- The per-entry extraction of `get_chain_objects`: a 2-tuple key whose
first component is `chain_id` yields its `(index, object)` pair. -/
def chainEntry (chain_id : String) (p : RKey × Obj) : Option (Idx × Obj) :=
  match p.1 with
  | .tup c x => if c = chain_id then some (x, p.2) else none
  | .atom _ => none

/-- `get_chain_objects`: sweep, collect `(index, object)` for every 2-tuple
key with first component `chain_id` (refreshing each one's access time),
then sort by index (`list.sort` is stable; the matched keys of a dict are
distinct, so the indices are distinct and the sort is determined). -/
def get_chain_objects (now : ℤ) (chain_id : String) (r : Registry) :
    List (Idx × Obj) × Registry :=
  let r := cleanExpired now r
  let result := r.chain_objects.filterMap (chainEntry chain_id)
  let times := r.chain_objects.foldl
    (fun ts p => if matchesChain chain_id p.1 then dset p.1 now ts else ts)
    r.access_times
  (List.insertionSort idxPairLe result, { r with access_times := times })

/-- `remove_chain_objects`: collect the matching keys, delete each from both
dicts, return how many were removed. -/
def remove_chain_objects (chain_id : String) (r : Registry) : ℕ × Registry :=
  let keys_to_remove := (r.chain_objects.map Prod.fst).filter (matchesChain chain_id)
  (keys_to_remove.length,
   { r with chain_objects := keys_to_remove.foldl (fun d k => ddel k d) r.chain_objects,
            access_times := keys_to_remove.foldl (fun d k => ddel k d) r.access_times })

/-- `kwargs.get(name, default)`. -/
def kwget (kwargs : List (String × JValue)) (name : String) (default : JValue) :
    JValue :=
  (dget name kwargs).getD default

/-- The model-construction branch of `get_model`; an unknown model type raises
`ValueError`, modelled as `none`.  The `ChatOpenAI`/`ChatAnthropic`/
`ChatOllama` instances are modelled by records of the arguments passed. -/
def mkModel (model_type : String) (kwargs : List (String × JValue)) : Option Obj :=
  if model_type = "openai" then
    some (.chatOpenAI (kwget kwargs "model_name" (.jstr "gpt-4o-mini"))
                      (kwget kwargs "temperature" (.jfloat (7 / 10))))
  else if model_type = "anthropic" then
    some (.chatAnthropic (kwget kwargs "model_name" (.jstr "claude-3-haiku-20240307"))
                         (kwget kwargs "temperature" (.jfloat (7 / 10))))
  else if model_type = "ollama" then
    some (.chatOllama (kwget kwargs "model_name" (.jstr "llama3"))
                      (kwget kwargs "temperature" (.jfloat (7 / 10))))
  else none

/-- `{"type": model_type, **kwargs}`. -/
def modelParams (model_type : String) (kwargs : List (String × JValue)) :
    List (String × JValue) :=
  kwargs.foldl (fun d p => dset p.1 p.2 d) [("type", .jstr model_type)]

/-- `get_model`.  Besides the returned model and the updated state, the `Bool`
records which branch ran: `true` for the "Creating new model" branch, `false`
for a cache hit (the source distinguishes the two in its debug output).
`none` models the `ValueError` raised for an unknown model type. -/
def get_model (hash : String → String) (now : ℤ) (model_type : String)
    (kwargs : List (String × JValue)) (r : Registry) :
    Option (Obj × Bool) × Registry :=
  let model_id := generate_id hash (.jdict (modelParams model_type kwargs))
  let key : RKey := .tup "model" (.s model_id)
  match get_object now key r with
  | (some model, r1) => (some (model, false), r1)
  | (none, r1) =>
    match mkModel model_type kwargs with
    | some model => (some (model, true), set_object now key model r1)
    | none => (none, r1)

/-- The cache key `("model", model_id)` that `get_model` stores under. -/
def modelKey (hash : String → String) (model_type : String)
    (kwargs : List (String × JValue)) : RKey :=
  .tup "model" (.s (generate_id hash (.jdict (modelParams model_type kwargs))))

/-- `get_prompt`: cached under `("prompt", generate_id(messages))`; constructs
`ChatPromptTemplate.from_messages(messages)` on a miss. -/
def get_prompt (hash : String → String) (now : ℤ) (messages : JValue)
    (r : Registry) : (Obj × Bool) × Registry :=
  let prompt_id := generate_id hash messages
  let key : RKey := .tup "prompt" (.s prompt_id)
  match get_object now key r with
  | (some p, r1) => ((p, false), r1)
  | (none, r1) => ((.prompt messages, true), set_object now key (.prompt messages) r1)

/-- Digits of a Python int literal after the sign: at least one ASCII digit,
single underscores allowed between digits. -/
def pyDigitsCore : ℕ → List Char → Option ℕ
  | acc, [] => some acc
  | acc, c :: cs =>
    if c.isDigit then pyDigitsCore (10 * acc + (c.toNat - 48)) cs
    else if c = '_' then
      match cs with
      | c' :: cs' =>
        if c'.isDigit then pyDigitsCore (10 * acc + (c'.toNat - 48)) cs' else none
      | [] => none
    else none

def pyDigits : List Char → Option ℕ
  | [] => none
  | c :: cs => if c.isDigit then pyDigitsCore (c.toNat - 48) cs else none

/-- Strip leading and trailing whitespace, as `int(...)` tolerates. -/
def stripSpaces (cs : List Char) : List Char :=
  ((cs.dropWhile Char.isWhitespace).reverse.dropWhile Char.isWhitespace).reverse

/-- Python `int(s)` on a string: surrounding whitespace, an optional sign,
then decimal digits; `none` models the `ValueError` on anything else. -/
def pyIntOfString (s : String) : Option ℤ :=
  match stripSpaces s.data with
  | [] => none
  | '+' :: cs => (pyDigits cs).map (fun n => (n : ℤ))
  | '-' :: cs => (pyDigits cs).map (fun n => -(n : ℤ))
  | cs => (pyDigits cs).map (fun n => (n : ℤ))

/-- `ComponentRegistry.__new__`'s TTL initialisation:
`int(os.environ.get('CHAIN_CACHE_LRU_HOUR', 24))`, with the
`ValueError`/`TypeError` handler falling back to 24.  When the variable is
absent `os.environ.get` returns the default `24` (already an int). -/
def lruHoursOfEnv (env : Option String) : ℤ :=
  match env with
  | none => 24
  | some s => (pyIntOfString s).getD 24

/-- The registry's structural invariant: the object dict and the access-time
dict hold exactly the same keys. -/
def InvKeys (r : Registry) : Prop :=
  ∀ k, (dget k r.chain_objects).isSome ↔ (dget k r.access_times).isSome

/-! ## Chain-id management (`src/snappychain/__init__.py`) -/

/-- Python object identity (`id(chain)`). -/
abbrev PyId := ℕ

/-- `_chain_registry`: the module-level dict mapping `id(chain)` to its
chain id. -/
abbrev ChainIdRegistry := List (PyId × String)

/-- `get_chain_id`: `_chain_registry.get(id(chain), "unknown")`. -/
def get_chain_id (reg : ChainIdRegistry) (o : PyId) : String :=
  (dget o reg).getD "unknown"

/-- `set_chain_id`: register `chain_id or generate_chain_id()` for the object
and return the id; the freshly drawn uuid of `generate_chain_id` is passed in
as `fresh` (Python `or` falls back on `None` and on the empty string). -/
def set_chain_id (reg : ChainIdRegistry) (o : PyId) (chain_id : Option String)
    (fresh : String) : ChainIdRegistry × String :=
  let cid := match chain_id with
    | some c => if c = "" then fresh else c
    | none => fresh
  (dset o cid reg, cid)

/-- The patched `RunnableLambda.__or__` installed by
`_override_pipe_operator`: compose (the composite is a new object with
identity `newId`), then carry the left operand's chain id forward when it has
one. -/
def pipe_override (reg : ChainIdRegistry) (selfId newId : PyId)
    (fresh : String) : ChainIdRegistry :=
  let chain_id := get_chain_id reg selfId
  if chain_id ≠ "unknown" then (set_chain_id reg newId (some chain_id) fresh).1
  else reg

/-- A `Chain` object: `chain_id` is kept as an instance attribute. -/
structure Chain where
  pyId : PyId
  chain_id : String

/-- `Chain.__init__`: registers `chain_id or generate_chain_id()` in
`_chain_registry` and stores it on the instance. -/
def Chain.make (reg : ChainIdRegistry) (pyId : PyId) (chain_id : Option String)
    (fresh : String) : Chain × ChainIdRegistry :=
  let rc := set_chain_id reg pyId chain_id fresh
  (⟨pyId, rc.2⟩, rc.1)

/-- `Chain.__or__`: `super().__or__(other)` runs the patched pipe operator on
the new composite object, then the composite's `chain_id` attribute is copied
from the left operand. -/
def Chain.pipe (reg : ChainIdRegistry) (c : Chain) (newId : PyId)
    (fresh : String) : Chain × ChainIdRegistry :=
  (⟨newId, c.chain_id⟩, pipe_override reg c.pyId newId fresh)

/-! ## BM25SJ retriever

The module `snappychain/bm25sj.py` is not present in the source tree; only
its example caller `examples/example_bm25.py` is.  The engine below is
modelled from the specification's contract (§4.1, §6, §8). -/

/-- Modelled from the spec: the BM25SJ engine state (the implementation
module `bm25sj.py` is missing from the source tree) — parameters `k1`, `b`,
result count `k`, the document store in insertion order, the inverted index
(term → per-document term frequency), the per-document token counts, and the
average document length recomputed over the full corpus on every insertion.
Scores are rationals; a document's id is its insertion position. -/
structure BMEngine where
  k1 : ℚ
  b : ℚ
  k : ℕ
  docs : List String
  index : List (String × List (ℕ × ℕ))
  doclens : List (ℕ × ℕ)
  avgdl : ℚ

/-- Modelled from the spec: record one occurrence of term `t` in document `d`
in the inverted index. -/
def addTerm (d : ℕ) (idx : List (String × List (ℕ × ℕ))) (t : String) :
    List (String × List (ℕ × ℕ)) :=
  match dget t idx with
  | none => dset t [(d, 1)] idx
  | some post =>
    match dget d post with
    | none => dset t (post ++ [(d, 1)]) idx
    | some f => dset t (dset d (f + 1) post) idx

/-- Modelled from the spec: ingest one document — tokenize, increment term
frequencies, extend the document-length table, and recompute `avgdl` over the
full (old+new) corpus. -/
def addDoc (tok : String → List String) (e : BMEngine) (text : String) :
    BMEngine :=
  let d := e.doclens.length
  let terms := tok text
  let doclens := e.doclens ++ [(d, terms.length)]
  { e with docs := e.docs ++ [text],
           index := terms.foldl (addTerm d) e.index,
           doclens := doclens,
           avgdl := ((doclens.map Prod.snd).sum : ℚ) / (doclens.length : ℚ) }

/-- Modelled from the spec: `add_documents` appends to the store and updates
the index incrementally, one document at a time. -/
def BMEngine.add_documents (tok : String → List String) (e : BMEngine)
    (new_documents : List String) : BMEngine :=
  new_documents.foldl (addDoc tok) e

/-- Modelled from the spec: construction builds the index from the given
documents in one pass; `ConfigError` (modelled as `none`) when `k1 ≤ 0` or
`b` lies outside `[0,1]`. -/
def BMEngine.construct (tok : String → List String) (documents : List String)
    (k1 b : ℚ) (k : ℕ) : Option BMEngine :=
  if 0 < k1 ∧ 0 ≤ b ∧ b ≤ 1 then
    some (documents.foldl (addDoc tok) ⟨k1, b, k, [], [], [], 0⟩)
  else none

/-- Modelled from the spec: `n(term)`, the number of documents containing the
term. -/
def BMEngine.nTerm (e : BMEngine) (t : String) : ℕ :=
  ((dget t e.index).getD []).length

/-- Modelled from the spec: `f(term, D)`, the term frequency in document `d`. -/
def BMEngine.tf (e : BMEngine) (t : String) (d : ℕ) : ℕ :=
  (dget d ((dget t e.index).getD [])).getD 0

/-- Modelled from the spec: `|D|`, the token count of document `d`. -/
def BMEngine.dlen (e : BMEngine) (d : ℕ) : ℕ :=
  (dget d e.doclens).getD 0

/-- Modelled from the spec: the BM25 score of document `d` against the query
terms.  `idf` abstracts the transcendental
`ln((N - n(term) + 0.5)/(n(term) + 0.5) + 1)` as a function of `N` and
`n(term)`; every theorem below holds for all `idf`. -/
def BMEngine.score (idf : ℕ → ℕ → ℚ) (e : BMEngine) (qterms : List String)
    (d : ℕ) : ℚ :=
  (qterms.map (fun t =>
    idf e.doclens.length (e.nTerm t) *
      ((e.tf t d : ℚ) * (e.k1 + 1)) /
        ((e.tf t d : ℚ) + e.k1 * (1 - e.b + e.b * (e.dlen d : ℚ) / e.avgdl)))).sum

/-- Modelled from the spec: the descending-score order the stable sort uses. -/
def scoreGe (a b : ℕ × ℚ) : Prop := b.2 ≤ a.2

instance : DecidableRel scoreGe := fun a b =>
  inferInstanceAs (Decidable (b.2 ≤ a.2))

instance : IsTotal (ℕ × ℚ) scoreGe :=
  ⟨fun a b => (le_total b.2 a.2).elim Or.inl Or.inr⟩

instance : IsTrans (ℕ × ℚ) scoreGe := ⟨fun _ _ _ h h' => le_trans h' h⟩

/-- Modelled from the spec: `query` — tokenize with the indexing tokenizer,
score every document containing at least one query term, sort by descending
score with a stable sort (ties keep insertion order), and return at most `k`
results (`kOverride` is the query-time `k`) as `(position, score)` pairs. -/
def BMEngine.query (tok : String → List String) (idf : ℕ → ℕ → ℚ)
    (e : BMEngine) (q : String) (kOverride : Option ℕ) : List (ℕ × ℚ) :=
  let qterms := tok q
  let cand := (List.range e.doclens.length).filter
    (fun d => qterms.any (fun t => (dget d ((dget t e.index).getD [])).isSome))
  let scored := cand.map (fun d => (d, e.score idf qterms d))
  (List.insertionSort scoreGe scored).take (kOverride.getD e.k)

/-- Modelled from the spec: the persisted blob — parameters and documents,
data sufficient to rebuild the index (as §6 allows). -/
structure SavedState where
  k1 : ℚ
  b : ℚ
  k : ℕ
  docs : List String

/-- Modelled from the spec: `save` serialises the full engine state. -/
def BMEngine.save (e : BMEngine) : SavedState := ⟨e.k1, e.b, e.k, e.docs⟩

/-- Modelled from the spec: `load` rebuilds the engine from the blob, failing
(`none`) rather than returning a partially constructed engine. -/
def BMEngine.load (tok : String → List String) (s : SavedState) :
    Option BMEngine :=
  BMEngine.construct tok s.docs s.k1 s.b s.k

theorem canon_jdict (es : List (String × JValue)) :
    canon (.jdict es) =
      .jdict (List.insertionSort keyLe (es.map (fun p => (p.1, canon p.2)))) := by
  rw [canon]
  rw [List.attach_map_val es (fun p => (p.1, canon p.2))]

theorem canon_jstr (s : String) : canon (.jstr s) = .jstr s := by
  rw [canon]

theorem canon_singleton (k : String) (s : String) :
    canon (.jdict [(k, .jstr s)]) = .jdict [(k, .jstr s)] := by
  rw [canon_jdict]
  simp [List.insertionSort, List.orderedInsert, canon_jstr]

theorem dumps_jstr (s : String) : dumps (.jstr s) = "\"" ++ jsonEscape s ++ "\"" := by
  rw [dumps]

theorem dumps_singleton (k : String) (v : JValue) :
    dumps (.jdict [(k, v)])
      = "\x7b" ++ ("\"" ++ jsonEscape k ++ "\": " ++ dumps v) ++ "\x7d" := by
  rw [dumps]
  simp [List.attach, String.intercalate, String.intercalate.go]

theorem sorted_keyLt_of_nodup_keys {l : List (String × JValue)}
    (hs : l.Sorted keyLe) (hnd : (l.map Prod.fst).Nodup) : l.Sorted keyLt := by
  have hne : l.Pairwise (fun p q : String × JValue => p.1 ≠ q.1) :=
    (List.pairwise_map).1 hnd
  exact (hs.and hne).imp (fun h => lt_of_le_of_ne h.1 h.2)

theorem insertionSort_keyLe_eq_of_perm {xs ys : List (String × JValue)}
    (hnd : (xs.map Prod.fst).Nodup) (hp : xs.Perm ys) :
    List.insertionSort keyLe xs = List.insertionSort keyLe ys := by
  have hpx : (List.insertionSort keyLe xs).Perm xs := List.perm_insertionSort keyLe xs
  have hpy : (List.insertionSort keyLe ys).Perm ys := List.perm_insertionSort keyLe ys
  have hndx : ((List.insertionSort keyLe xs).map Prod.fst).Nodup :=
    ((hpx.map Prod.fst).nodup_iff).2 hnd
  have hndy : ((List.insertionSort keyLe ys).map Prod.fst).Nodup :=
    ((hpy.map Prod.fst).nodup_iff).2 (((hp.map Prod.fst).nodup_iff).1 hnd)
  refine List.eq_of_perm_of_sorted (r := keyLt)
    (hpx.trans (hp.trans hpy.symm)) ?_ ?_
  · exact sorted_keyLt_of_nodup_keys (List.sorted_insertionSort keyLe xs) hndx
  · exact sorted_keyLt_of_nodup_keys (List.sorted_insertionSort keyLe ys) hndy

/-- C2: two parameter mappings equal as mappings (a permutation of the same
key/value entries, keys distinct as in a Python dict) receive the same
identifier from `generate_id`, for every hash function — so both requests
address the same cache entry, and `generate_id` is deterministic. -/
theorem C2_generate_id_canonical (hash : String → String)
    (xs ys : List (String × JValue))
    (hnd : (xs.map Prod.fst).Nodup) (hperm : xs.Perm ys) :
    generate_id hash (.jdict xs) = generate_id hash (.jdict ys) := by
  have hcanon : canon (.jdict xs) = canon (.jdict ys) := by
    rw [canon_jdict, canon_jdict]
    congr 1
    refine insertionSort_keyLe_eq_of_perm ?_ (hperm.map _)
    have : (xs.map (fun p : String × JValue => (p.1, canon p.2))).map Prod.fst
        = xs.map Prod.fst := by
      simp [List.map_map, Function.comp]
    rw [this]
    exact hnd
  simp only [generate_id, dataStr, hcanon]

theorem dget_dset_same {κ α : Type} [DecidableEq κ] (k : κ) (v : α)
    (d : List (κ × α)) : dget k (dset k v d) = some v := by
  induction d with
  | nil => simp [dget, dset]
  | cons p t ih =>
    by_cases h : p.1 = k
    · simp [dset, h, dget]
    · simp [dset, h, dget, ih]

theorem dget_dset_ne {κ α : Type} [DecidableEq κ] {k k' : κ} (v : α)
    (d : List (κ × α)) (h : k' ≠ k) : dget k' (dset k v d) = dget k' d := by
  induction d with
  | nil =>
    simp only [dset, dget]
    rw [if_neg (fun he => h he.symm)]
  | cons p t ih =>
    by_cases hp : p.1 = k
    · subst hp
      have h' : ¬ p.1 = k' := fun he => h he.symm
      simp only [dset, if_pos rfl, dget]
      rw [if_neg h', if_neg h']
    · simp only [dset, if_neg hp, dget]
      by_cases hp' : p.1 = k'
      · rw [if_pos hp', if_pos hp']
      · rw [if_neg hp', if_neg hp', ih]

theorem dget_filter_key {κ α : Type} [DecidableEq κ] (f : κ → Bool) (k : κ)
    (d : List (κ × α)) :
    dget k (d.filter (fun p => f p.1)) = if f k then dget k d else none := by
  induction d with
  | nil => simp [dget]
  | cons p t ih =>
    by_cases hp : p.1 = k
    · subst hp
      by_cases hf : f p.1 <;> simp [List.filter, hf, dget, ih]
    · by_cases hf : f p.1 <;> simp [List.filter, hf, dget, hp, ih]

theorem dget_ddel {κ α : Type} [DecidableEq κ] (k k' : κ) (d : List (κ × α)) :
    dget k' (ddel k d) = if k' = k then none else dget k' d := by
  have := dget_filter_key (fun x => decide (x ≠ k)) k' d
  simp only [ddel]
  rw [this]
  by_cases h : k' = k <;> simp [h]

theorem dget_isSome_iff_mem {κ α : Type} [DecidableEq κ] (k : κ)
    (d : List (κ × α)) : (dget k d).isSome ↔ k ∈ d.map Prod.fst := by
  induction d with
  | nil => simp [dget]
  | cons p t ih =>
    by_cases hp : p.1 = k
    · simp [dget, hp]
    · simp only [dget, if_neg hp, List.map_cons, List.mem_cons, ih]
      constructor
      · exact Or.inr
      · rintro (he | hm)
        · exact absurd he.symm hp
        · exact hm

theorem foldl_ddel_eq_filter {κ α : Type} [DecidableEq κ] (ks : List κ)
    (d : List (κ × α)) :
    ks.foldl (fun d k => ddel k d) d = d.filter (fun p => decide (p.1 ∉ ks)) := by
  induction ks generalizing d with
  | nil => simp
  | cons k kt ih =>
    rw [List.foldl_cons, ih]
    simp only [ddel, List.filter_filter]
    apply List.filter_congr
    intro p _
    by_cases h1 : p.1 = k <;> by_cases h2 : p.1 ∈ kt <;> simp [h1, h2]

theorem dget_isSome_of_mem {κ α : Type} [DecidableEq κ] {p : κ × α}
    {d : List (κ × α)} (hp : p ∈ d) : (dget p.1 d).isSome := by
  rw [dget_isSome_iff_mem]
  exact List.mem_map_of_mem Prod.fst hp

/-- C6: `remove_chain_objects c` deletes from both dicts exactly the entries
whose key is a 2-tuple with first component `c`, returns how many entries it
deleted, and leaves every entry with a non-matching key — object and
last-access timestamp — unchanged. -/
theorem C6_remove_chain_objects (c : String) (r : Registry) (hinv : InvKeys r) :
    (remove_chain_objects c r).2.chain_objects
        = r.chain_objects.filter (fun p => !(matchesChain c p.1)) ∧
    (remove_chain_objects c r).2.access_times
        = r.access_times.filter (fun p => !(matchesChain c p.1)) ∧
    (remove_chain_objects c r).1
        = (r.chain_objects.filter (fun p => matchesChain c p.1)).length ∧
    (remove_chain_objects c r).2.lru_hours = r.lru_hours ∧
    ∀ k, matchesChain c k = false →
      dget k (remove_chain_objects c r).2.chain_objects = dget k r.chain_objects ∧
      dget k (remove_chain_objects c r).2.access_times = dget k r.access_times := by
  have hobj : (remove_chain_objects c r).2.chain_objects
      = r.chain_objects.filter (fun p => !(matchesChain c p.1)) := by
    simp only [remove_chain_objects, foldl_ddel_eq_filter]
    apply List.filter_congr
    intro p hp
    have hmem : p.1 ∈ r.chain_objects.map Prod.fst := List.mem_map_of_mem Prod.fst hp
    by_cases hm : matchesChain c p.1 <;> simp [List.mem_filter, hmem, hm]
  have htimes : (remove_chain_objects c r).2.access_times
      = r.access_times.filter (fun p => !(matchesChain c p.1)) := by
    simp only [remove_chain_objects, foldl_ddel_eq_filter]
    apply List.filter_congr
    intro p hp
    have hsome : (dget p.1 r.access_times).isSome := dget_isSome_of_mem hp
    have hmem : p.1 ∈ r.chain_objects.map Prod.fst :=
      (dget_isSome_iff_mem p.1 r.chain_objects).1 ((hinv p.1).2 hsome)
    by_cases hm : matchesChain c p.1 <;> simp [List.mem_filter, hmem, hm]
  refine ⟨hobj, htimes, ?_, rfl, ?_⟩
  · simp only [remove_chain_objects, List.filter_map, List.length_map]
    rfl
  · intro k hk
    constructor
    · rw [hobj, dget_filter_key (fun x => !(matchesChain c x)) k, hk]
      rfl
    · rw [htimes, dget_filter_key (fun x => !(matchesChain c x)) k, hk]
      rfl

/-- C6 witness: a registry holding a chain entry, a model entry and an entry
of another chain; removing chain `"a"` deletes its entry alone and counts 1. -/
theorem C6_witness :
    InvKeys ⟨[(.tup "a" (.i 0), .ext 0), (.tup "model" (.s "m"), .ext 1),
              (.tup "b" (.i 0), .ext 2)],
             [(.tup "a" (.i 0), 1), (.tup "model" (.s "m"), 2),
              (.tup "b" (.i 0), 3)], 24⟩ ∧
    (remove_chain_objects "a"
      ⟨[(.tup "a" (.i 0), .ext 0), (.tup "model" (.s "m"), .ext 1),
        (.tup "b" (.i 0), .ext 2)],
       [(.tup "a" (.i 0), 1), (.tup "model" (.s "m"), 2),
        (.tup "b" (.i 0), 3)], 24⟩).1 = 1 := by
  have hinv : InvKeys ⟨[(.tup "a" (.i 0), .ext 0), (.tup "model" (.s "m"), .ext 1),
              (.tup "b" (.i 0), .ext 2)],
             [(.tup "a" (.i 0), 1), (.tup "model" (.s "m"), 2),
              (.tup "b" (.i 0), 3)], 24⟩ := by
    intro k
    simp only [dget]
    by_cases h1 : RKey.tup "a" (.i 0) = k <;>
      by_cases h2 : RKey.tup "model" (.s "m") = k <;>
      by_cases h3 : RKey.tup "b" (.i 0) = k <;>
      simp [h1, h2, h3]
  refine ⟨hinv, ?_⟩
  have := (C6_remove_chain_objects "a" _ hinv).2.2.1
  rw [this]
  rfl

instance : IsTotal Idx idxLe := by
  constructor
  intro a b
  cases a <;> cases b <;> simp [idxLe]
  · exact Int.le_total _ _
  · exact le_total _ _

instance : IsTrans Idx idxLe := by
  constructor
  intro a b c hab hbc
  cases a <;> cases b <;> cases c <;> simp only [idxLe] at * <;>
    exact le_trans hab hbc

instance : IsTotal (Idx × Obj) idxPairLe :=
  ⟨fun a b => IsTotal.total (r := idxLe) a.1 b.1⟩

instance : IsTrans (Idx × Obj) idxPairLe :=
  ⟨fun _ _ _ h h' => IsTrans.trans (r := idxLe) _ _ _ h h'⟩

theorem chainEntry_eq_some {c : String} {p : RKey × Obj} {x : Idx} {o : Obj} :
    chainEntry c p = some (x, o) ↔ p = (.tup c x, o) := by
  obtain ⟨key, v⟩ := p
  cases key with
  | tup c' x' =>
    by_cases hc : c' = c
    · subst hc
      simp [chainEntry]
    · simp [chainEntry, hc]
  | atom s =>
    simp [chainEntry]

theorem dget_foldl_touch (c : String) (now : ℤ) (objs : List (RKey × Obj))
    (ts : List (RKey × ℤ)) (k : RKey) :
    dget k (objs.foldl
        (fun ts p => if matchesChain c p.1 then dset p.1 now ts else ts) ts)
      = if k ∈ objs.map Prod.fst ∧ matchesChain c k then some now
        else dget k ts := by
  induction objs generalizing ts with
  | nil => simp
  | cons p t ih =>
    rw [List.foldl_cons, ih]
    by_cases hmem : k ∈ t.map Prod.fst ∧ matchesChain c k
    · rw [if_pos hmem, if_pos ⟨List.mem_cons_of_mem _ hmem.1, hmem.2⟩]
    · rw [if_neg hmem]
      by_cases hm : matchesChain c p.1
      · rw [if_pos hm]
        by_cases hk : p.1 = k
        · subst hk
          rw [dget_dset_same, if_pos ⟨List.mem_cons_self _ _, hm⟩]
        · rw [dget_dset_ne now ts (fun he => hk he.symm)]
          rw [if_neg (fun hcon => hmem ⟨?_, hcon.2⟩)]
          rcases List.mem_cons.1 hcon.1 with he | hmem'
          · exact absurd he.symm hk
          · exact hmem'
      · rw [if_neg hm]
        rw [if_neg (fun hcon => ?_)]
        rcases List.mem_cons.1 hcon.1 with he | hmem'
        · exact hm (he ▸ hcon.2)
        · exact hmem ⟨hmem', hcon.2⟩

/-- C5: `get_chain_objects c` returns exactly the (post-sweep) cached entries
whose key is the pair `(c, index)`, as `(index, object)` pairs in ascending
index order; it refreshes the access time of every matched entry, leaves the
object dict and all non-matching access times unchanged. -/
theorem C5_get_chain_objects (now : ℤ) (c : String) (r : Registry) :
    (∀ (x : Idx) (o : Obj),
        (x, o) ∈ (get_chain_objects now c r).1 ↔
          (RKey.tup c x, o) ∈ (cleanExpired now r).chain_objects) ∧
    (get_chain_objects now c r).1.Sorted idxPairLe ∧
    (get_chain_objects now c r).1.Pairwise
        (fun a b => ∀ m n : ℤ, a.1 = Idx.i m → b.1 = Idx.i n → m ≤ n) ∧
    (get_chain_objects now c r).2.chain_objects = (cleanExpired now r).chain_objects ∧
    (∀ (x : Idx) (o : Obj),
        (RKey.tup c x, o) ∈ (cleanExpired now r).chain_objects →
          dget (RKey.tup c x) (get_chain_objects now c r).2.access_times = some now) ∧
    (∀ k, matchesChain c k = false →
        dget k (get_chain_objects now c r).2.access_times
          = dget k (cleanExpired now r).access_times) := by
  have hres : (get_chain_objects now c r).1
      = List.insertionSort idxPairLe
          ((cleanExpired now r).chain_objects.filterMap (chainEntry c)) := rfl
  have htimes : (get_chain_objects now c r).2.access_times
      = (cleanExpired now r).chain_objects.foldl
          (fun ts p => if matchesChain c p.1 then dset p.1 now ts else ts)
          (cleanExpired now r).access_times := rfl
  have hsorted : (get_chain_objects now c r).1.Sorted idxPairLe := by
    rw [hres]
    exact List.sorted_insertionSort idxPairLe _
  refine ⟨?_, hsorted, ?_, rfl, ?_, ?_⟩
  · intro x o
    rw [hres, (List.perm_insertionSort idxPairLe _).mem_iff, List.mem_filterMap]
    constructor
    · rintro ⟨p, hp, hpe⟩
      rw [chainEntry_eq_some.1 hpe] at hp
      exact hp
    · intro hmem
      exact ⟨(.tup c x, o), hmem, chainEntry_eq_some.2 rfl⟩
  · exact hsorted.imp (fun {a b} hle m n ha hb => by
      simp only [idxPairLe] at hle
      rw [ha, hb] at hle
      exact hle)
  · intro x o hmem
    rw [htimes, dget_foldl_touch]
    rw [if_pos ⟨List.mem_map_of_mem Prod.fst hmem, by simp [matchesChain]⟩]
  · intro k hk
    rw [htimes, dget_foldl_touch]
    rw [if_neg (fun hcon => by rw [hk] at hcon; exact Bool.false_ne_true hcon.2)]

/-- C5 witness: on a registry holding chain `"a"`'s entries at indices 1 and
0, `get_chain_objects` refreshes the access time of the entry at index 0. -/
theorem C5_witness :
    (RKey.tup "a" (.i 0), Obj.ext 11) ∈
      (cleanExpired 0 ⟨[(.tup "a" (.i 1), .ext 10), (.tup "a" (.i 0), .ext 11)],
        [(.tup "a" (.i 1), 0), (.tup "a" (.i 0), 0)], 24⟩).chain_objects ∧
    dget (RKey.tup "a" (.i 0))
      (get_chain_objects 0 "a"
        ⟨[(.tup "a" (.i 1), .ext 10), (.tup "a" (.i 0), .ext 11)],
         [(.tup "a" (.i 1), 0), (.tup "a" (.i 0), 0)], 24⟩).2.access_times
      = some 0 := by
  have hclean : cleanExpired 0
      ⟨[(.tup "a" (.i 1), .ext 10), (.tup "a" (.i 0), .ext 11)],
       [(.tup "a" (.i 1), 0), (.tup "a" (.i 0), 0)], 24⟩
      = ⟨[(.tup "a" (.i 1), .ext 10), (.tup "a" (.i 0), .ext 11)],
         [(.tup "a" (.i 1), 0), (.tup "a" (.i 0), 0)], 24⟩ := rfl
  have hmem : (RKey.tup "a" (.i 0), Obj.ext 11) ∈
      (cleanExpired 0 ⟨[(.tup "a" (.i 1), .ext 10), (.tup "a" (.i 0), .ext 11)],
        [(.tup "a" (.i 1), 0), (.tup "a" (.i 0), 0)], 24⟩).chain_objects := by
    rw [hclean]
    exact List.Mem.tail _ (List.Mem.head _)
  exact ⟨hmem, (C5_get_chain_objects 0 "a" _).2.2.2.2.1 (Idx.i 0) (Obj.ext 11) hmem⟩

/-- C8: composing a `Chain` that has a chain identifier with any runnable
yields a composite whose identifier equals the left operand's, both as the
`chain_id` attribute and in `_chain_registry`; a left operand with no
registered identifier propagates none. -/
theorem C8_pipe_propagates_chain_id (reg : ChainIdRegistry) (c : Chain)
    (newId : PyId) (fresh : String)
    (hreg : dget c.pyId reg = some c.chain_id) (hval : c.chain_id ≠ "unknown")
    (hval' : c.chain_id ≠ "") :
    ((Chain.pipe reg c newId fresh).1.chain_id = c.chain_id ∧
     get_chain_id (Chain.pipe reg c newId fresh).2 newId = c.chain_id) ∧
    ∀ selfId freshId : PyId, dget selfId reg = none →
      pipe_override reg selfId freshId fresh = reg := by
  constructor
  · refine ⟨rfl, ?_⟩
    show get_chain_id (pipe_override reg c.pyId newId fresh) newId = c.chain_id
    have hg : get_chain_id reg c.pyId = c.chain_id := by
      simp [get_chain_id, hreg]
    rw [pipe_override]
    simp only [hg]
    rw [if_pos hval, set_chain_id]
    simp only [if_neg hval']
    simp [get_chain_id, dget_dset_same]
  · intro selfId freshId hnone
    rw [pipe_override]
    have hg : get_chain_id reg selfId = "unknown" := by
      simp [get_chain_id, hnone]
    simp [hg]

/-- C8 witness: a chain with id `"abc"` composed into object 1 propagates
`"abc"` to the composite; object 5 is unregistered and propagates nothing. -/
theorem C8_witness :
    dget (0 : PyId) [((0 : PyId), "abc")] = some "abc" ∧
    (Chain.pipe [((0 : PyId), "abc")] ⟨0, "abc"⟩ 1 "fresh").1.chain_id = "abc" ∧
    get_chain_id (Chain.pipe [((0 : PyId), "abc")] ⟨0, "abc"⟩ 1 "fresh").2 1 = "abc" ∧
    ∀ freshId : PyId, pipe_override [((0 : PyId), "abc")] 5 freshId "fresh"
      = [((0 : PyId), "abc")] := by
  have h := C8_pipe_propagates_chain_id [((0 : PyId), "abc")] ⟨0, "abc"⟩ 1 "fresh"
    (by decide) (by decide) (by decide)
  exact ⟨by decide, h.1.1, h.1.2, fun freshId => h.2 5 freshId (by decide)⟩

theorem foldl_preserve {β σ : Type} {P : σ → Prop} (f : σ → β → σ) (l : List β)
    (h : ∀ s b, P s → P (f s b)) : ∀ s, P s → P (l.foldl f s) := by
  induction l with
  | nil => exact fun s hs => hs
  | cons b t ih => exact fun s hs => ih _ (h s b hs)

theorem invKeys_cleanExpired (now : ℤ) (r : Registry) (h : InvKeys r) :
    InvKeys (cleanExpired now r) := by
  refine foldl_preserve _ _ ?_ r h
  intro s k hs
  by_cases hk : (dget k s.chain_objects).isSome
  · rw [if_pos hk]
    intro k'
    rw [dget_ddel, dget_ddel]
    by_cases he : k' = k
    · simp [he]
    · rw [if_neg he, if_neg he]
      exact hs k'
  · rw [if_neg hk]
    exact hs

theorem invKeys_get_object (now : ℤ) (key : RKey) (r : Registry)
    (h : InvKeys r) : InvKeys (get_object now key r).2 := by
  have hc := invKeys_cleanExpired now r h
  simp only [get_object]
  rcases hx : dget key (cleanExpired now r).chain_objects with _ | o
  · exact hc
  · intro k'
    by_cases he : k' = key
    · subst he
      simp [hx, dget_dset_same]
    · simp only []
      rw [dget_dset_ne now _ he]
      exact hc k'

theorem invKeys_set_object (now : ℤ) (key : RKey) (o : Obj) (r : Registry)
    (h : InvKeys r) : InvKeys (set_object now key o r) := by
  have hc := invKeys_cleanExpired now r h
  intro k'
  simp only [set_object]
  by_cases he : k' = key
  · subst he
    rw [dget_dset_same, dget_dset_same]
    simp
  · rw [dget_dset_ne o _ he, dget_dset_ne now _ he]
    exact hc k'

theorem invKeys_get_chain_objects (now : ℤ) (c : String) (r : Registry)
    (h : InvKeys r) : InvKeys (get_chain_objects now c r).2 := by
  have hc := invKeys_cleanExpired now r h
  intro k
  show (dget k (cleanExpired now r).chain_objects).isSome
      ↔ (dget k ((cleanExpired now r).chain_objects.foldl
          (fun ts p => if matchesChain c p.1 then dset p.1 now ts else ts)
          (cleanExpired now r).access_times)).isSome
  rw [dget_foldl_touch]
  by_cases hcond : k ∈ (cleanExpired now r).chain_objects.map Prod.fst
      ∧ matchesChain c k
  · rw [if_pos hcond]
    simp [(dget_isSome_iff_mem k _).2 hcond.1]
  · rw [if_neg hcond]
    exact hc k

theorem invKeys_remove_chain_objects (c : String) (r : Registry)
    (h : InvKeys r) : InvKeys (remove_chain_objects c r).2 := by
  intro k
  show (dget k (((r.chain_objects.map Prod.fst).filter (matchesChain c)).foldl
        (fun d k => ddel k d) r.chain_objects)).isSome
      ↔ (dget k (((r.chain_objects.map Prod.fst).filter (matchesChain c)).foldl
        (fun d k => ddel k d) r.access_times)).isSome
  rw [foldl_ddel_eq_filter, foldl_ddel_eq_filter,
    dget_filter_key
      (fun x => decide (x ∉ (r.chain_objects.map Prod.fst).filter (matchesChain c))) k
      r.chain_objects,
    dget_filter_key
      (fun x => decide (x ∉ (r.chain_objects.map Prod.fst).filter (matchesChain c))) k
      r.access_times]
  by_cases hk : k ∈ (r.chain_objects.map Prod.fst).filter (matchesChain c)
  · simp [hk]
  · rw [if_pos (by simpa using hk), if_pos (by simpa using hk)]
    exact h k

theorem invKeys_get_model (hash : String → String) (now : ℤ) (mt : String)
    (kwargs : List (String × JValue)) (r : Registry) (h : InvKeys r) :
    InvKeys (get_model hash now mt kwargs r).2 := by
  simp only [get_model]
  rcases hgo : get_object now
      (.tup "model" (.s (generate_id hash (.jdict (modelParams mt kwargs))))) r
    with ⟨mo, r1⟩
  have h1 : InvKeys r1 := by
    have := invKeys_get_object now
      (.tup "model" (.s (generate_id hash (.jdict (modelParams mt kwargs))))) r h
    rw [hgo] at this
    exact this
  cases mo with
  | some m => exact h1
  | none =>
    cases hmk : mkModel mt kwargs with
    | some m => exact invKeys_set_object now _ m r1 h1
    | none => exact h1

theorem invKeys_get_prompt (hash : String → String) (now : ℤ) (msgs : JValue)
    (r : Registry) (h : InvKeys r) : InvKeys (get_prompt hash now msgs r).2 := by
  simp only [get_prompt]
  rcases hgo : get_object now (.tup "prompt" (.s (generate_id hash msgs))) r
    with ⟨mo, r1⟩
  have h1 : InvKeys r1 := by
    have := invKeys_get_object now (.tup "prompt" (.s (generate_id hash msgs))) r h
    rw [hgo] at this
    exact this
  cases mo with
  | some m => exact h1
  | none => exact invKeys_set_object now _ _ r1 h1

theorem get_model_init (hash : String → String) (mt : String)
    (kwargs : List (String × JValue)) (lru t : ℤ) (m : Obj)
    (hmk : mkModel mt kwargs = some m) :
    get_model hash t mt kwargs (Registry.init lru)
      = (some (m, true),
         ⟨[(modelKey hash mt kwargs, m)], [(modelKey hash mt kwargs, t)], lru⟩) := by
  simp only [get_model, get_object, cleanExpired, Registry.init, List.filter_nil,
    List.map_nil, List.foldl_nil, dget, hmk, set_object, dset, modelKey]

theorem cleanExpired_single_live (k : RKey) (m : Obj) (t now lru : ℤ)
    (h : ¬ now - t > lru) :
    cleanExpired now ⟨[(k, m)], [(k, t)], lru⟩ = ⟨[(k, m)], [(k, t)], lru⟩ := by
  simp [cleanExpired, h]

theorem cleanExpired_single_expired (k : RKey) (m : Obj) (t now lru : ℤ)
    (h : now - t > lru) :
    cleanExpired now ⟨[(k, m)], [(k, t)], lru⟩ = ⟨[], [], lru⟩ := by
  simp [cleanExpired, h, dget, ddel]

theorem get_model_hit (hash : String → String) (mt : String)
    (kwargs : List (String × JValue)) (lru t1 t2 : ℤ) (m : Obj)
    (h : ¬ t2 - t1 > lru) :
    get_model hash t2 mt kwargs
        ⟨[(modelKey hash mt kwargs, m)], [(modelKey hash mt kwargs, t1)], lru⟩
      = (some (m, false),
         ⟨[(modelKey hash mt kwargs, m)], [(modelKey hash mt kwargs, t2)], lru⟩) := by
  have hc := cleanExpired_single_live (modelKey hash mt kwargs) m t1 t2 lru h
  simp only [get_model, get_object, modelKey] at hc ⊢
  rw [hc]
  simp [dget, dset]

theorem get_model_expired (hash : String → String) (mt : String)
    (kwargs : List (String × JValue)) (lru t2 t3 : ℤ) (m m' : Obj)
    (hmk : mkModel mt kwargs = some m')
    (h : t3 - t2 > lru) :
    get_model hash t3 mt kwargs
        ⟨[(modelKey hash mt kwargs, m)], [(modelKey hash mt kwargs, t2)], lru⟩
      = (some (m', true),
         ⟨[(modelKey hash mt kwargs, m')], [(modelKey hash mt kwargs, t3)], lru⟩) := by
  have hc := cleanExpired_single_expired (modelKey hash mt kwargs) m t2 t3 lru h
  simp only [get_model, get_object, modelKey] at hc ⊢
  rw [hc]
  simp only [dget, hmk, set_object, cleanExpired, List.filter_nil, List.map_nil,
    List.foldl_nil, dset]

/-- C1: from a registry in which the `(kind, parameters)` pair is not cached,
two `get_model` requests less than TTL hours apart construct the model once:
the first takes the construction branch, the second returns the identical
cached instance without constructing and refreshes its `last_access`; a
request more than TTL hours after the last access takes the construction
branch again. -/
theorem C1_model_cache (hash : String → String) (mt : String)
    (kwargs : List (String × JValue)) (lru t1 t2 t3 : ℤ) (m : Obj)
    (hmk : mkModel mt kwargs = some m)
    (h12 : t2 - t1 < lru) (h23 : t3 - t2 > lru) :
    ∃ s1 s2 : Registry,
      get_model hash t1 mt kwargs (Registry.init lru) = (some (m, true), s1) ∧
      dget (modelKey hash mt kwargs) s1.chain_objects = some m ∧
      get_model hash t2 mt kwargs s1 = (some (m, false), s2) ∧
      dget (modelKey hash mt kwargs) s2.access_times = some t2 ∧
      (get_model hash t3 mt kwargs s2).1 = some (m, true) := by
  refine ⟨⟨[(modelKey hash mt kwargs, m)], [(modelKey hash mt kwargs, t1)], lru⟩,
          ⟨[(modelKey hash mt kwargs, m)], [(modelKey hash mt kwargs, t2)], lru⟩,
          get_model_init hash mt kwargs lru t1 m hmk, ?_, ?_, ?_, ?_⟩
  · simp [dget]
  · exact get_model_hit hash mt kwargs lru t1 t2 m (by omega)
  · simp [dget]
  · rw [get_model_expired hash mt kwargs lru t2 t3 m m hmk h23]

/-- C1 witness: an `"openai"` model requested at hours 0 and 10 with TTL 24 is
constructed once and served from cache, and requested again at hour 40 it is
constructed anew. -/
theorem C1_witness :
    mkModel "openai" [] = some (.chatOpenAI (.jstr "gpt-4o-mini") (.jfloat (7 / 10))) ∧
    ((10 : ℤ) - 0 < 24) ∧ ((40 : ℤ) - 10 > 24) ∧
    ∃ s1 s2 : Registry,
      get_model (fun s => s) 0 "openai" [] (Registry.init 24)
        = (some (.chatOpenAI (.jstr "gpt-4o-mini") (.jfloat (7 / 10)), true), s1) ∧
      dget (modelKey (fun s => s) "openai" []) s1.chain_objects
        = some (.chatOpenAI (.jstr "gpt-4o-mini") (.jfloat (7 / 10))) ∧
      get_model (fun s => s) 10 "openai" [] s1
        = (some (.chatOpenAI (.jstr "gpt-4o-mini") (.jfloat (7 / 10)), false), s2) ∧
      dget (modelKey (fun s => s) "openai" []) s2.access_times = some 10 ∧
      (get_model (fun s => s) 40 "openai" [] s2).1
        = some (.chatOpenAI (.jstr "gpt-4o-mini") (.jfloat (7 / 10)), true) :=
  ⟨rfl, by decide, by decide,
   C1_model_cache (fun s => s) "openai" [] 24 0 10 40 _ rfl (by decide) (by decide)⟩

theorem cleanExpired_of_live (now lru : ℤ) (objs : List (RKey × Obj))
    (ts : List (RKey × ℤ)) (h : ∀ p ∈ ts, ¬ now - p.2 > lru) :
    cleanExpired now ⟨objs, ts, lru⟩ = ⟨objs, ts, lru⟩ := by
  simp only [cleanExpired]
  have hnil : ts.filter (fun kt => decide (now - kt.2 > lru)) = [] := by
    rw [List.filter_eq_nil_iff]
    intro p hp
    simpa using h p hp
  rw [hnil]
  rfl

theorem get_model_miss_snd (hash : String → String) (mt : String)
    (kwargs : List (String × JValue)) (k1 : RKey) (m1 m2 : Obj) (lru t1 t2 : ℤ)
    (hmk : mkModel mt kwargs = some m2)
    (hne : modelKey hash mt kwargs ≠ k1)
    (hlive : ¬ t2 - t1 > lru) :
    get_model hash t2 mt kwargs ⟨[(k1, m1)], [(k1, t1)], lru⟩
      = (some (m2, true),
         ⟨[(k1, m1), (modelKey hash mt kwargs, m2)],
          [(k1, t1), (modelKey hash mt kwargs, t2)], lru⟩) := by
  have hc := cleanExpired_of_live t2 lru [(k1, m1)] [(k1, t1)] (by
    intro p hp
    rcases List.mem_singleton.1 hp with rfl
    exact hlive)
  have hk : ¬ k1 = RKey.tup "model"
      (Idx.s (generate_id hash (.jdict (modelParams mt kwargs)))) :=
    fun h => hne (show modelKey hash mt kwargs = k1 from h.symm)
  simp only [get_model, get_object]
  rw [hc]
  simp only [dget, if_neg hk, hmk, set_object]
  rw [hc]
  simp only [dset, if_neg hk]
  rfl

theorem remove_two_models (kA kB : RKey) (mA mB : Obj) (tA tB lru : ℤ)
    (hA : matchesChain "model" kA = true) (hB : matchesChain "model" kB = true)
    (hAB : kB ≠ kA) :
    remove_chain_objects "model" ⟨[(kA, mA), (kB, mB)], [(kA, tA), (kB, tB)], lru⟩
      = (2, ⟨[], [], lru⟩) := by
  have hfil : List.filter (matchesChain "model") [kA, kB] = [kA, kB] := by
    simp [hA, hB]
  simp only [remove_chain_objects, List.map_cons, List.map_nil, hfil]
  have e1 : ddel kA [(kA, mA), (kB, mB)] = [(kB, mB)] := by
    simp [ddel, hAB]
  have e2 : ddel kB ([(kB, mB)] : List (RKey × Obj)) = [] := by
    simp [ddel]
  have e3 : ddel kA [(kA, tA), (kB, tB)] = [(kB, tB)] := by
    simp [ddel, hAB]
  have e4 : ddel kB ([(kB, tB)] : List (RKey × ℤ)) = [] := by
    simp [ddel]
  simp only [List.foldl_cons, List.foldl_nil, e1, e2, e3, e4, List.length_cons,
    List.length_nil]

/-- C9: the parameter-hash key space and the chain-scoped key space are not
disjoint: `get_model` caches every model under the 2-tuple key
`("model", id)`, so on a registry holding two models
`get_chain_objects "model"` returns all cached models as if `"model"` were a
chain identifier, and `remove_chain_objects "model"` evicts every cached
model. -/
theorem C9_model_chain_key_overlap (hash : String → String) (mt1 mt2 : String)
    (kw1 kw2 : List (String × JValue)) (lru : ℤ) (m1 m2 : Obj)
    (hmk1 : mkModel mt1 kw1 = some m1) (hmk2 : mkModel mt2 kw2 = some m2)
    (hne : modelKey hash mt2 kw2 ≠ modelKey hash mt1 kw1)
    (hlru : ¬ (0 : ℤ) - 0 > lru) :
    (get_model hash 0 mt1 kw1 (Registry.init lru)).2.chain_objects
      = [(RKey.tup "model" (.s (generate_id hash (.jdict (modelParams mt1 kw1)))), m1)] ∧
    ∃ s2 : Registry,
      get_model hash 0 mt2 kw2 (get_model hash 0 mt1 kw1 (Registry.init lru)).2
        = (some (m2, true), s2) ∧
      (get_chain_objects 0 "model" s2).1.Perm
        [(Idx.s (generate_id hash (.jdict (modelParams mt1 kw1))), m1),
         (Idx.s (generate_id hash (.jdict (modelParams mt2 kw2))), m2)] ∧
      remove_chain_objects "model" s2 = (2, ⟨[], [], lru⟩) := by
  have h1 := get_model_init hash mt1 kw1 lru 0 m1 hmk1
  have h2 := get_model_miss_snd hash mt2 kw2 (modelKey hash mt1 kw1) m1 m2 lru 0 0
    hmk2 hne hlru
  refine ⟨by rw [h1]; rfl, ⟨_, by rw [h1]; exact h2, ?_, ?_⟩⟩
  · have hc := cleanExpired_of_live 0 lru
      [(modelKey hash mt1 kw1, m1), (modelKey hash mt2 kw2, m2)]
      [(modelKey hash mt1 kw1, 0), (modelKey hash mt2 kw2, 0)] (by
        intro p hp
        rcases List.mem_cons.1 hp with rfl | hp'
        · exact hlru
        · rcases List.mem_singleton.1 hp' with rfl
          exact hlru)
    show (List.insertionSort idxPairLe _).Perm _
    rw [hc]
    refine (List.perm_insertionSort idxPairLe _).trans ?_
    simp only [List.filterMap, modelKey, chainEntry, if_pos rfl]
    exact List.Perm.refl _
  · exact remove_two_models (modelKey hash mt1 kw1) (modelKey hash mt2 kw2) m1 m2
      0 0 lru rfl rfl hne

/-- C9 witness: with the identity in place of md5, an `"openai"` and an
`"ollama"` model cached at hour 0 with TTL 24 are both returned by
`get_chain_objects "model"` and both evicted by
`remove_chain_objects "model"`. -/
theorem C9_witness :
    modelKey (fun s => s) "ollama" [] ≠ modelKey (fun s => s) "openai" [] ∧
    ((get_model (fun s => s) 0 "openai" [] (Registry.init 24)).2.chain_objects
      = [(RKey.tup "model"
            (.s (generate_id (fun s => s) (.jdict (modelParams "openai" [])))),
          Obj.chatOpenAI (.jstr "gpt-4o-mini") (.jfloat (7 / 10)))] ∧
    ∃ s2 : Registry,
      get_model (fun s => s) 0 "ollama" []
          (get_model (fun s => s) 0 "openai" [] (Registry.init 24)).2
        = (some (Obj.chatOllama (.jstr "llama3") (.jfloat (7 / 10)), true), s2) ∧
      (get_chain_objects 0 "model" s2).1.Perm
        [(Idx.s (generate_id (fun s => s) (.jdict (modelParams "openai" []))),
          Obj.chatOpenAI (.jstr "gpt-4o-mini") (.jfloat (7 / 10))),
         (Idx.s (generate_id (fun s => s) (.jdict (modelParams "ollama" []))),
          Obj.chatOllama (.jstr "llama3") (.jfloat (7 / 10)))] ∧
      remove_chain_objects "model" s2 = (2, ⟨[], [], 24⟩)) := by
  have hid : generate_id (fun s => s) (.jdict (modelParams "ollama" []))
      ≠ generate_id (fun s => s) (.jdict (modelParams "openai" [])) := by
    have hmp1 : modelParams "ollama" [] = [("type", .jstr "ollama")] := rfl
    have hmp2 : modelParams "openai" [] = [("type", .jstr "openai")] := rfl
    rw [hmp1, hmp2, generate_id, generate_id, dataStr, dataStr, canon_singleton,
      canon_singleton, dumps_singleton, dumps_singleton, dumps_jstr, dumps_jstr]
    decide
  have hne : modelKey (fun s => s) "ollama" [] ≠ modelKey (fun s => s) "openai" [] := by
    intro h
    apply hid
    have h2 : Idx.s (generate_id (fun s => s) (.jdict (modelParams "ollama" [])))
        = Idx.s (generate_id (fun s => s) (.jdict (modelParams "openai" []))) := by
      injection h
    injection h2
  exact ⟨hne,
    C9_model_chain_key_overlap (fun s => s) "openai" "ollama" [] [] 24 _ _ rfl rfl
      hne (by decide)⟩

/-- C10: every public registry operation — `get_object`, `set_object`,
`get_chain_object`, `set_chain_object`, `get_chain_objects`,
`remove_chain_objects`, `get_model`, `get_prompt`, and the expiry sweep —
preserves the invariant that `chain_objects` and `access_times` hold exactly
the same keys. -/
theorem C10_registry_invariant (r : Registry) (hinv : InvKeys r) (now : ℤ)
    (key : RKey) (o : Obj) (c mt : String) (index : ℤ)
    (kwargs : List (String × JValue)) (hash : String → String) (msgs : JValue) :
    InvKeys (cleanExpired now r) ∧
    InvKeys (get_object now key r).2 ∧
    InvKeys (set_object now key o r) ∧
    InvKeys (get_chain_object now c index r).2 ∧
    InvKeys (set_chain_object now c index o r) ∧
    InvKeys (get_chain_objects now c r).2 ∧
    InvKeys (remove_chain_objects c r).2 ∧
    InvKeys (get_model hash now mt kwargs r).2 ∧
    InvKeys (get_prompt hash now msgs r).2 :=
  ⟨invKeys_cleanExpired now r hinv,
   invKeys_get_object now key r hinv,
   invKeys_set_object now key o r hinv,
   invKeys_get_object now _ r hinv,
   invKeys_set_object now _ o r hinv,
   invKeys_get_chain_objects now c r hinv,
   invKeys_remove_chain_objects c r hinv,
   invKeys_get_model hash now mt kwargs r hinv,
   invKeys_get_prompt hash now msgs r hinv⟩

/-- C10 witness: the fresh registry satisfies the invariant, and a sweep on
it preserves it. -/
theorem C10_witness :
    InvKeys (Registry.init 24) ∧ InvKeys (cleanExpired 0 (Registry.init 24)) :=
  ⟨fun _ => Iff.rfl,
   (C10_registry_invariant (Registry.init 24) (fun _ => Iff.rfl) 0 (.atom "k")
      (.ext 0) "c" "openai" 0 [] (fun s => s) .jnull).1⟩

/-- C7: the TTL comes from `CHAIN_CACHE_LRU_HOUR` interpreted as an integer;
an absent value yields 24 hours, and an invalid value falls back to 24
without raising (the parse failure is modelled by `pyIntOfString s = none`). -/
theorem C7_ttl_from_env :
    lruHoursOfEnv none = 24 ∧
    (∀ s : String, pyIntOfString s = none → lruHoursOfEnv (some s) = 24) ∧
    (∀ (s : String) (n : ℤ), pyIntOfString s = some n → lruHoursOfEnv (some s) = n) := by
  refine ⟨rfl, ?_, ?_⟩
  · intro s h
    simp [lruHoursOfEnv, h]
  · intro s n h
    simp [lruHoursOfEnv, h]

/-- C7 witness: a non-numeric value falls back to 24, a numeric value with
surrounding whitespace parses, and an absent value defaults to 24. -/
theorem C7_witness :
    pyIntOfString "abc" = none ∧ lruHoursOfEnv (some "abc") = 24 ∧
    pyIntOfString " 48 " = some 48 ∧ lruHoursOfEnv (some " 48 ") = 48 ∧
    lruHoursOfEnv none = 24 :=
  ⟨by decide, C7_ttl_from_env.2.1 "abc" (by decide), by decide,
   C7_ttl_from_env.2.2 " 48 " 48 (by decide), C7_ttl_from_env.1⟩

/-- C2 witness: the same two-entry mapping in two insertion orders hashes to
the same identifier. -/
theorem C2_witness :
    (([("b", JValue.jint 2), ("a", JValue.jint 1)]).map Prod.fst).Nodup ∧
    generate_id (fun s => s) (.jdict [("b", .jint 2), ("a", .jint 1)]) =
      generate_id (fun s => s) (.jdict [("a", .jint 1), ("b", .jint 2)]) :=
  ⟨by decide,
   C2_generate_id_canonical (fun s => s) _ _ (by decide)
     (List.Perm.swap ("a", JValue.jint 1) ("b", JValue.jint 2) [])⟩

theorem pairwise_orderedInsert_stable {α : Type} (r : α → α → Prop)
    [DecidableRel r] [IsTotal α r] [IsTrans α r] {Q : α → α → Prop} (x : α)
    (l : List α) (hl : l.Pairwise (fun a b => r a b ∧ (r b a → Q a b)))
    (hx : ∀ y ∈ l, Q x y) :
    (List.orderedInsert r x l).Pairwise (fun a b => r a b ∧ (r b a → Q a b)) := by
  induction l with
  | nil => simp
  | cons y ys ih =>
    rw [List.orderedInsert]
    by_cases hxy : r x y
    · rw [if_pos hxy]
      refine List.Pairwise.cons ?_ hl
      intro z hz
      rcases List.mem_cons.1 hz with rfl | hz'
      · exact ⟨hxy, fun _ => hx z (List.mem_cons_self _ _)⟩
      · have hyz := List.rel_of_pairwise_cons hl hz'
        exact ⟨IsTrans.trans x y z hxy hyz.1,
               fun _ => hx z (List.mem_cons_of_mem _ hz')⟩
    · rw [if_neg hxy]
      refine List.Pairwise.cons ?_
        (ih hl.of_cons (fun y' hy' => hx y' (List.mem_cons_of_mem _ hy')))
      intro z hz
      rcases (List.mem_orderedInsert r).1 hz with rfl | hz'
      · refine ⟨?_, fun hxy' => absurd hxy' hxy⟩
        rcases IsTotal.total (r := r) z y with h | h
        · exact absurd h hxy
        · exact h
      · exact List.rel_of_pairwise_cons hl hz'

theorem pairwise_insertionSort_stable {α : Type} (r : α → α → Prop)
    [DecidableRel r] [IsTotal α r] [IsTrans α r] {Q : α → α → Prop}
    (l : List α) (h : l.Pairwise Q) :
    (l.insertionSort r).Pairwise (fun a b => r a b ∧ (r b a → Q a b)) := by
  induction l with
  | nil => simp
  | cons x t ih =>
    rw [List.insertionSort]
    refine pairwise_orderedInsert_stable r x _ (ih h.of_cons) ?_
    intro y hy
    rw [List.mem_insertionSort] at hy
    exact List.rel_of_pairwise_cons h hy

/-- C3: for every engine state, tokenizer, idf weighting and query, `query`
returns results sorted by non-increasing BM25 score, and any two results with
equal scores appear in their original insertion order — so results are
deterministic across runs. -/
theorem C3_query_sorted_stable (tok : String → List String) (idf : ℕ → ℕ → ℚ)
    (e : BMEngine) (q : String) (ko : Option ℕ) :
    (BMEngine.query tok idf e q ko).Pairwise (fun a b => b.2 ≤ a.2) ∧
    (BMEngine.query tok idf e q ko).Pairwise
      (fun a b => a.2 = b.2 → a.1 < b.1) := by
  have hq : BMEngine.query tok idf e q ko
      = (List.insertionSort scoreGe (((List.range e.doclens.length).filter
          (fun d => (tok q).any
            (fun t => (dget d ((dget t e.index).getD [])).isSome))).map
          (fun d => (d, e.score idf (tok q) d)))).take (ko.getD e.k) := rfl
  have hscored : (((List.range e.doclens.length).filter
      (fun d => (tok q).any
        (fun t => (dget d ((dget t e.index).getD [])).isSome))).map
      (fun d => (d, e.score idf (tok q) d))).Pairwise
      (fun a b : ℕ × ℚ => a.1 < b.1) := by
    rw [List.pairwise_map]
    exact (List.sorted_lt_range e.doclens.length).filter _
  have hstab := pairwise_insertionSort_stable scoreGe _ hscored
  have htake := List.Pairwise.sublist (List.take_sublist (ko.getD e.k) _) hstab
  rw [hq]
  constructor
  · exact htake.imp (fun h => h.1)
  · exact htake.imp (fun h heq => h.2 (le_of_eq heq))

theorem foldl_addDoc_fields (tok : String → List String) (docs : List String)
    (z : BMEngine) :
    (docs.foldl (addDoc tok) z).k1 = z.k1 ∧ (docs.foldl (addDoc tok) z).b = z.b ∧
    (docs.foldl (addDoc tok) z).k = z.k ∧
    (docs.foldl (addDoc tok) z).docs = z.docs ++ docs := by
  induction docs generalizing z with
  | nil => simp
  | cons t ts ih =>
    rcases ih (addDoc tok z t) with ⟨h1, h2, h3, h4⟩
    rw [List.foldl_cons]
    refine ⟨h1, h2, h3, ?_⟩
    rw [h4]
    show (z.docs ++ [t]) ++ ts = z.docs ++ t :: ts
    rw [List.append_assoc]
    rfl

theorem add_documents_foldl (tok : String → List String) (z : BMEngine)
    (d0 : List String) (batches : List (List String)) :
    batches.foldl (fun a ds => BMEngine.add_documents tok a ds)
        (d0.foldl (addDoc tok) z)
      = (d0 ++ batches.flatten).foldl (addDoc tok) z := by
  induction batches generalizing d0 with
  | nil => simp
  | cons ds rest ih =>
    rw [List.foldl_cons]
    have hstep : BMEngine.add_documents tok (d0.foldl (addDoc tok) z) ds
        = (d0 ++ ds).foldl (addDoc tok) z := by
      rw [BMEngine.add_documents, ← List.foldl_append]
    rw [hstep, ih (d0 ++ ds), List.flatten_cons, ← List.append_assoc]

/-- C4: for every engine state reachable by construction followed by any
sequence of `add_documents` calls, saving and loading yields an engine whose
`query` results equal the original's, for every query, tokenizer and idf
weighting (the round-trip is lossless). -/
theorem C4_save_load_roundtrip (tok : String → List String) (idf : ℕ → ℕ → ℚ)
    (k1 b : ℚ) (k : ℕ) (d0 : List String) (batches : List (List String))
    (q : String) (ko : Option ℕ)
    (hk1 : 0 < k1) (hb0 : 0 ≤ b) (hb1 : b ≤ 1) :
    ∃ e e' : BMEngine,
      BMEngine.construct tok d0 k1 b k = some e ∧
      BMEngine.load tok (BMEngine.save
        (batches.foldl (fun a ds => BMEngine.add_documents tok a ds) e))
        = some e' ∧
      BMEngine.query tok idf e' q ko
        = BMEngine.query tok idf
            (batches.foldl (fun a ds => BMEngine.add_documents tok a ds) e)
            q ko := by
  have hcon : BMEngine.construct tok d0 k1 b k
      = some (d0.foldl (addDoc tok) ⟨k1, b, k, [], [], [], 0⟩) := by
    rw [BMEngine.construct, if_pos ⟨hk1, hb0, hb1⟩]
  refine ⟨_, _, hcon, ?_, rfl⟩
  have hfold := add_documents_foldl tok ⟨k1, b, k, [], [], [], 0⟩ d0 batches
  rw [hfold]
  rcases foldl_addDoc_fields tok (d0 ++ batches.flatten) ⟨k1, b, k, [], [], [], 0⟩
    with ⟨h1, h2, h3, h4⟩
  rw [BMEngine.load, BMEngine.save, h1, h2, h3, h4]
  simp only [List.nil_append]
  rw [BMEngine.construct, if_pos ⟨hk1, hb0, hb1⟩]

/-- C4 witness: a concrete round trip — construct on two documents with
`k1 = 1`, `b = 1/2`, add one more batch, save and load. -/
theorem C4_witness :
    ((0 : ℚ) < 1 ∧ (0 : ℚ) ≤ 1 ∧ (1 : ℚ) ≤ 1) ∧
    ∃ e e' : BMEngine,
      BMEngine.construct (fun s => s.splitOn " ") ["a b", "b c"] 1 1 4
        = some e ∧
      BMEngine.load (fun s => s.splitOn " ") (BMEngine.save
        ([["c a"]].foldl
          (fun a ds => BMEngine.add_documents (fun s => s.splitOn " ") a ds) e))
        = some e' ∧
      BMEngine.query (fun s => s.splitOn " ") (fun N n => (N : ℚ) - n) e' "a" none
        = BMEngine.query (fun s => s.splitOn " ") (fun N n => (N : ℚ) - n)
            ([["c a"]].foldl
              (fun a ds => BMEngine.add_documents (fun s => s.splitOn " ") a ds) e)
            "a" none :=
  ⟨⟨by decide, by decide, by decide⟩,
   C4_save_load_roundtrip (fun s => s.splitOn " ") (fun N n => (N : ℚ) - n)
     1 1 4 ["a b", "b c"] [["c a"]] "a" none
     (by decide) (by decide) (by decide)⟩

end SnappyChain
